import Mathlib

/-!
Verification development for the Simple-Regex engine (`src/regex.hpp`,
namespace `simple_regex`).  The C++ source is shallowly embedded: byte
strings become `List Nat` (each entry a byte value), `std::string`
subscripting keeps its C++ semantics (`s[size()]` reads the null
terminator, reads past it are undefined behaviour, modelled as an
`Err.oob` result), machine integers become `Nat` with explicit wrapping
where the source can wrap, and every fallible path returns `Except Err`.
Loops are ported as fuelled recursions; the fuel supplied by the
wrappers is large enough that it is never exhausted on the inputs used
in the theorems.
-/

namespace SimpleRegex

/-- Outcomes of the C++ error paths: `invalidUtf8` and `badSyntax` are the
exceptions the source throws; `oob` marks an out-of-bounds container read
(undefined behaviour in C++); `ub` marks other undefined behaviour such as
dereferencing a null `op*`; `fuel` marks exhausted recursion fuel. -/
inductive Err where
  | invalidUtf8
  | badSyntax
  | invalidArgument
  | oob
  | ub
  | fuel
deriving DecidableEq, Repr

/-- `size_t` subtraction `a - b` (wraps modulo `2 ^ 64`). -/
def wsub (a b : Nat) : Nat :=
  if b ≤ a then a - b else 18446744073709551616 - (b - a) + a

/-- `std::string::operator[]`: in-bounds read, the null terminator at
position `size()`, and undefined behaviour beyond it. -/
def str_get (s : List Nat) (i : Nat) : Except Err Nat :=
  if h : i < s.length then .ok (s.get ⟨i, h⟩)
  else if i = s.length then .ok 0
  else .error .oob

/-- `peek_next(s, st)`: the byte after `st`, or 0 at the end. -/
def peek_next (s : List Nat) (st : Nat) : Nat :=
  if h : st + 1 < s.length then s.get ⟨st + 1, h⟩ else 0

/-- `utf_bytes(start_byte)`: byte count of the code point from its start
byte (`< 0xC0` gives 1, then 2/3/4 by the `< 0xE0` / `< 0xF0` tests). -/
def utf_bytes (start_byte : Nat) : Nat :=
  if start_byte % 256 < 192 then 1
  else 4 - (if start_byte % 256 < 224 then 1 else 0)
        - (if start_byte % 256 < 240 then 1 else 0)

/-- `get_utf8_n_inc(str, idx)`: decode the code point starting at `idx`
into the reverse-packed 32-bit value, returning it with the index of the
code point's last byte.  The length guards reproduce the C++ `size_t`
wrap-around, and the byte reads keep `std::string` subscript semantics. -/
def get_utf8_n_inc (str : List Nat) (idx : Nat) : Except Err (Nat × Nat) := do
  let b0 ← str_get str idx
  if utf_bytes b0 = 2 then
    if idx < wsub str.length 1 then do
      let b1 ← str_get str (idx + 1)
      .ok (b0 + b1 * 256, idx + 1)
    else .error .invalidUtf8
  else if utf_bytes b0 = 3 then
    if idx < wsub str.length 2 then do
      let b1 ← str_get str (idx + 1)
      let b2 ← str_get str (idx + 2)
      .ok (b0 + b1 * 256 + b2 * 65536, idx + 2)
    else .error .invalidUtf8
  else if utf_bytes b0 = 4 then
    if idx < wsub str.length 3 then do
      let b1 ← str_get str (idx + 1)
      let b2 ← str_get str (idx + 2)
      let b3 ← str_get str (idx + 3)
      .ok (b0 + b1 * 256 + b2 * 65536 + b3 * 16777216, idx + 3)
    else .error .invalidUtf8
  else .ok (b0, idx)

/-- Perfect hash of a 2-byte code point (11 significant bits). -/
def utf_2byte_h (a b : Nat) : Nat := b % 64 + (a % 32) * 64

/-- Perfect hash of a 3-byte code point (16 significant bits). -/
def utf_3byte_h (a b c : Nat) : Nat := c % 64 + (b % 64) * 64 + (a % 16) * 4096

/-- Perfect hash of a 4-byte code point (21 significant bits). -/
def utf_4byte_h (a b c d : Nat) : Nat :=
  d % 64 + (c % 64) * 64 + (b % 64) * 4096 + (a % 8) * 262144

/-- Membership update for a bitmap tier modelled as its list of set bit
indices. -/
def tier_set (t : List Nat) (i : Nat) : List Nat :=
  if i ∈ t then t else t ++ [i]

/-- Union of two tiers (`bitmap::operator|=`). -/
def tier_or (t u : List Nat) : List Nat := u.foldl tier_set t

/-- `utf8_bitmap`: the four tiers.  `ascii` is always present; `latin`,
`bmp` and the 512-row `others` array are lazily allocated (`none` models a
null pointer, and a missing row of `others` models a null row). -/
structure Utf8Bitmap where
  ascii : List Nat
  latin : Option (List Nat)
  bmp : Option (List Nat)
  others : Option (List (Nat × List Nat))
deriving DecidableEq, Repr

def Utf8Bitmap.empty : Utf8Bitmap := ⟨[], none, none, none⟩

/-- Row lookup in the `others` 512-pointer array. -/
def row_find (rows : List (Nat × List Nat)) (idx : Nat) : Option (List Nat) :=
  (rows.find? (fun p => p.1 = idx)).map (fun p => p.2)

/-- Row update in the `others` array (allocating the row if absent). -/
def row_set (rows : List (Nat × List Nat)) (idx : Nat) (mapidx : Nat) :
    List (Nat × List Nat) :=
  match rows.find? (fun p => p.1 = idx) with
  | some _ => rows.map (fun p => if p.1 = idx then (p.1, tier_set p.2 mapidx) else p)
  | none => rows ++ [(idx, [mapidx])]

def Utf8Bitmap.test1 (m : Utf8Bitmap) (a : Nat) : Bool := a % 256 ∈ m.ascii

def Utf8Bitmap.test2 (m : Utf8Bitmap) (a b : Nat) : Bool :=
  match m.latin with
  | none => false
  | some t => utf_2byte_h a b ∈ t

def Utf8Bitmap.test3 (m : Utf8Bitmap) (a b c : Nat) : Bool :=
  match m.bmp with
  | none => false
  | some t => utf_3byte_h a b c ∈ t

def Utf8Bitmap.test4 (m : Utf8Bitmap) (a b c d : Nat) : Bool :=
  match m.others with
  | none => false
  | some rows =>
    match row_find rows ((a % 8) * 64 + b % 32) with
    | none => false
    | some row => (c % 32) * 64 + d % 32 ∈ row

def Utf8Bitmap.insert1 (m : Utf8Bitmap) (a : Nat) : Utf8Bitmap :=
  { m with ascii := tier_set m.ascii (a % 256) }

def Utf8Bitmap.insert2 (m : Utf8Bitmap) (a b : Nat) : Utf8Bitmap :=
  { m with latin := some (tier_set (m.latin.getD []) (utf_2byte_h a b)) }

def Utf8Bitmap.insert3 (m : Utf8Bitmap) (a b c : Nat) : Utf8Bitmap :=
  { m with bmp := some (tier_set (m.bmp.getD []) (utf_3byte_h a b c)) }

def Utf8Bitmap.insert4 (m : Utf8Bitmap) (a b c d : Nat) : Utf8Bitmap :=
  let rows := row_set (m.others.getD []) ((a % 8) * 64 + b % 32) ((c % 32) * 64 + d % 32)
  { m with others := some rows }

/-- `utf8_bitmap::test_rev4byte`: dispatch on the byte count derived from
the low (start) byte of the reverse-packed word. -/
def Utf8Bitmap.test_rev4byte (m : Utf8Bitmap) (bytes : Nat) : Bool :=
  let a := bytes % 256
  match utf_bytes a with
  | 2 => m.test2 a (bytes / 256 % 256)
  | 3 => m.test3 a (bytes / 256 % 256) (bytes / 65536 % 256)
  | 4 => m.test4 a (bytes / 256 % 256) (bytes / 65536 % 256) (bytes / 16777216 % 256)
  | _ => m.test1 a

/-- `utf8_bitmap::insert_rev4byte`. -/
def Utf8Bitmap.insert_rev4byte (m : Utf8Bitmap) (bytes : Nat) : Utf8Bitmap :=
  let a := bytes % 256
  match utf_bytes a with
  | 2 => m.insert2 a (bytes / 256 % 256)
  | 3 => m.insert3 a (bytes / 256 % 256) (bytes / 65536 % 256)
  | 4 => m.insert4 a (bytes / 256 % 256) (bytes / 65536 % 256) (bytes / 16777216 % 256)
  | _ => m.insert1 a

/-- OR one `others` row of the right operand into the left operand's row
array, allocating the row when it is missing on the left. -/
def rows_or_row (acc : List (Nat × List Nat)) (p : Nat × List Nat) :
    List (Nat × List Nat) :=
  match acc.find? (fun q => q.1 = p.1) with
  | some _ => acc.map (fun q => if q.1 = p.1 then (q.1, tier_or q.2 p.2) else q)
  | none => acc ++ [(p.1, p.2)]

/-- `utf8_bitmap::operator|=` ported clause for clause: the `ascii` tier is
ORed, the `bmp` tier and the `others` rows are ORed (allocating missing
storage on the left), and — exactly as in the source — the `latin` tier is
not touched at all. -/
def Utf8Bitmap.or_eq (m other : Utf8Bitmap) : Utf8Bitmap :=
  let m1 := { m with ascii := tier_or m.ascii other.ascii }
  let m2 :=
    match other.bmp with
    | none => m1
    | some ob =>
      match m1.bmp with
      | some sb => { m1 with bmp := some (tier_or sb ob) }
      | none => { m1 with bmp := some ob }
  match other.others with
  | none => m2
  | some orows =>
    match m2.others with
    | some srows => { m2 with others := some (orows.foldl rows_or_row srows) }
    | none => { m2 with others := some orows }

/-- `hybrid_set` (a `sparse_set` plus a `bitvector` shadow).  `sparseLen`
is the length of the sparse index array, `bitBytes` the byte length of the
bitvector's backing store (`8 * ((bits + 63) / 64)` after a resize, 0 for a
default-constructed set), `dense` the dense array.  The bitvector's set
bits always coincide with `dense` membership, so the bit test is modelled
as membership guarded by the bitvector's bounds check. -/
structure Hybrid where
  sparseLen : Nat
  bitBytes : Nat
  dense : List Nat
deriving DecidableEq, Repr

def Hybrid.default : Hybrid := ⟨0, 0, []⟩

/-- `bitvector::test` via the hybrid invariant: reading byte `idx >> 3` of
the backing store is out of bounds when the store is too short. -/
def Hybrid.hstest (h : Hybrid) (i : Nat) : Except Err Bool :=
  if i / 8 < h.bitBytes then .ok (i ∈ h.dense) else .error .oob

/-- `hybrid_set::insert`: `sparse[i] = dense.size()` (out of bounds when
`i` exceeds the sparse array) followed by `dense.emplace_back(i)` and
`bitset.set(i)` (out of bounds when the store is too short). -/
def Hybrid.hsinsert (h : Hybrid) (i : Nat) : Except Err Hybrid :=
  if i < h.sparseLen ∧ i / 8 < h.bitBytes then
    .ok { h with dense := h.dense ++ [i] }
  else .error .oob

/-- `hybrid_set::set_range`: `sparse.resize(r)` (rejected when `r` does not
exceed the cardinality) and `bitset.resize(r)`. -/
def Hybrid.set_range (h : Hybrid) (r : Nat) : Except Err Hybrid :=
  if r > h.dense.length then
    .ok { h with sparseLen := r, bitBytes := 8 * ((r + 63) / 64) }
  else .error .invalidArgument

/-- `hybrid_set::clear` (the bitvector keeps its size). -/
def Hybrid.hsclear (h : Hybrid) : Hybrid := { h with dense := [] }

/-- Key equality used by the cache's `std::map` with `hybrid_set_comp`:
two keys collate equally iff their bitvectors have equal length and equal
contents, i.e. iff the sets agree. -/
def hkey_eq (a b : Hybrid) : Bool :=
  a.bitBytes = b.bitBytes && a.dense.all (· ∈ b.dense) && b.dense.all (· ∈ a.dense)

/-- The six `op::optype` values. -/
inductive OpType where
  | CHAR
  | MATCH
  | SPLIT
  | ANY
  | SAVE
  | CLASS
deriving DecidableEq, Repr

/-- A successor field of an `op`.  A field holds a null pointer (`none`),
a pointer to an op (`toOp`), or — during compilation, via the `memcpy`
punning of the dangling lists — a pointer to another op's `lb`/`rb` slot
(`toSlot i rb`). -/
inductive Link where
  | toOp (i : Nat)
  | toSlot (i : Nat) (rb : Bool)
deriving DecidableEq, Repr

abbrev Lk := Option Link

/-- The `op` record (the mutable `gen` stamp is threaded separately as
matcher state). -/
structure Op where
  opt : OpType
  data : Nat
  lb : Lk
  rb : Lk
deriving DecidableEq, Repr

/-- Read the `lb`/`rb` slot `(i, rb)` of `prog[i]`. -/
def read_slot (prog : List Op) (s : Nat × Bool) : Except Err Lk :=
  match prog.get? s.1 with
  | none => .error .oob
  | some o => .ok (if s.2 then o.rb else o.lb)

/-- Write the `lb`/`rb` slot `(i, rb)` of `prog[i]`. -/
def write_slot (prog : List Op) (s : Nat × Bool) (v : Lk) : Except Err (List Op) :=
  match prog.get? s.1 with
  | none => .error .oob
  | some o =>
    .ok (prog.set s.1 (if s.2 then { o with rb := v } else { o with lb := v }))

/-- Convert a stored `op*` into an op index as `ptr - vec_start` does; a
null or punned slot pointer here is undefined behaviour. -/
def link_idx (l : Lk) : Except Err Nat :=
  match l with
  | some (.toOp i) => .ok i
  | _ => .error .ub

/-- `cache_element::resolve_split` (the overload taking a filter): DFS
through SPLIT successors over a worklist, recording indices in the hybrid
set, inserting `op.data` into the filter on CHAR — and, exactly as in the
source, testing `op.opt == SPLIT` (dead in the `else` branch) where the
CLASS case was evidently intended, so the class bitmap is never ORed. -/
def resolve_split_filter_loop (oplist : List Op) (classes : List Utf8Bitmap)
    (fuel : Nat) (stack : List Nat) (list : Hybrid) (filter : Utf8Bitmap) :
    Except Err (Hybrid × Utf8Bitmap) :=
  match fuel with
  | 0 => .error .fuel
  | fuel + 1 =>
    match stack with
    | [] => .ok (list, filter)
    | top :: rest => do
      let seen ← list.hstest top
      if seen then
        resolve_split_filter_loop oplist classes fuel rest list filter
      else do
        let list ← list.hsinsert top
        match oplist.get? top with
        | none => .error .oob
        | some o =>
          if o.opt = OpType.SPLIT then do
            let il ← link_idx o.lb
            let ir ← link_idx o.rb
            resolve_split_filter_loop oplist classes fuel (ir :: il :: top :: rest) list filter
          else
            let filter :=
              if o.opt = OpType.CHAR then filter.insert_rev4byte o.data
              else if o.opt = OpType.SPLIT then
                filter.or_eq ((classes.get? o.data).getD Utf8Bitmap.empty)
              else filter
            resolve_split_filter_loop oplist classes fuel rest list filter

/-- Entry point of the filter overload of `resolve_split`. -/
def resolve_split_filter (list : Hybrid) (nxt : Nat) (oplist : List Op)
    (filter : Utf8Bitmap) (classes : List Utf8Bitmap) :
    Except Err (Hybrid × Utf8Bitmap) :=
  resolve_split_filter_loop oplist classes (4 * oplist.length + 4) [nxt] list filter

/-- The filterless overload of `resolve_split`. -/
def resolve_split_loop (oplist : List Op) (fuel : Nat) (stack : List Nat)
    (list : Hybrid) : Except Err Hybrid :=
  match fuel with
  | 0 => .error .fuel
  | fuel + 1 =>
    match stack with
    | [] => .ok list
    | top :: rest => do
      let seen ← list.hstest top
      if seen then resolve_split_loop oplist fuel rest list
      else do
        let list ← list.hsinsert top
        match oplist.get? top with
        | none => .error .oob
        | some o =>
          if o.opt = OpType.SPLIT then do
            let il ← link_idx o.lb
            let ir ← link_idx o.rb
            resolve_split_loop oplist fuel (ir :: il :: top :: rest) list
          else resolve_split_loop oplist fuel rest list

/-- Entry point of the filterless overload of `resolve_split`. -/
def resolve_split (list : Hybrid) (nxt : Nat) (oplist : List Op) :
    Except Err Hybrid :=
  resolve_split_loop oplist (4 * oplist.length + 4) [nxt] list

/-- OR an inclusive ASCII range into a tier (the `lower_mask` unions in
`char_class` for `a-z`, `A-Z`, `0-9`). -/
def tier_or_range (t : List Nat) (lo hi : Nat) : List Nat :=
  tier_or t (List.range' lo (hi + 1 - lo))

/-- `char_class(s, st, ret_end)` with `End = ']'`: build the class bitmap
from position `st` up to the terminating `]`, returning the bitmap and the
index of the `]`.  The three fixed ranges use three-byte lookahead; the
multi-byte guards keep the C++ `size_t` wrap-around; running off the end
throws (modelled `invalidArgument`, like the source's message). -/
def char_class_loop (s : List Nat) (fuel : Nat) (st : Nat) (ret : Utf8Bitmap) :
    Except Err (Utf8Bitmap × Nat) :=
  match fuel with
  | 0 => .error .fuel
  | fuel + 1 => do
    let next_char ← str_get s st
    if next_char = 93 then .ok (ret, st)
    else do
      let step : Utf8Bitmap × Nat ←
        if next_char = 97 then
          if peek_next s st = 45 ∧ peek_next s (st + 1) = 122 then
            .ok ({ ret with ascii := tier_or_range ret.ascii 97 122 }, st + 3)
          else .ok (ret.insert1 next_char, st + 1)
        else if next_char = 65 then
          if peek_next s st = 45 ∧ peek_next s (st + 1) = 90 then
            .ok ({ ret with ascii := tier_or_range ret.ascii 65 90 }, st + 3)
          else .ok (ret.insert1 next_char, st + 1)
        else if next_char = 48 then
          if peek_next s st = 45 ∧ peek_next s (st + 1) = 57 then
            .ok ({ ret with ascii := tier_or_range ret.ascii 48 57 }, st + 3)
          else .ok (ret.insert1 next_char, st + 1)
        else
          match utf_bytes next_char with
          | 2 =>
            if st < wsub s.length 2 then do
              let b1 ← str_get s (st + 1)
              if b1 = 93 then .error .invalidUtf8
              else .ok (ret.insert2 next_char b1, st + 2)
            else .error .invalidUtf8
          | 3 =>
            if st < wsub s.length 3 then do
              let b1 ← str_get s (st + 1)
              let b2 ← str_get s (st + 2)
              if b1 = 93 ∨ b2 = 93 then .error .invalidUtf8
              else .ok (ret.insert3 next_char b1 b2, st + 3)
            else .error .invalidUtf8
          | 4 =>
            if st < wsub s.length 4 then do
              let b1 ← str_get s (st + 1)
              let b2 ← str_get s (st + 2)
              let b3 ← str_get s (st + 3)
              if b1 = 93 ∨ b2 = 93 ∨ b3 = 93 then .error .invalidUtf8
              else .ok (ret.insert4 next_char b1 b2 b3, st + 4)
            else .error .invalidUtf8
          | _ => .ok (ret.insert1 next_char, st + 1)
      if step.2 ≥ s.length then .error .invalidArgument
      else char_class_loop s fuel step.2 step.1

def char_class (s : List Nat) (st : Nat) : Except Err (Utf8Bitmap × Nat) :=
  char_class_loop s (s.length + 1) st Utf8Bitmap.empty

/-- The byte-copy loop shared by `tokenise` and the shunting-yard pass for
`[...]`: copy from position `i` until the first `]` (exclusive), failing
as the source does when the string ends first. -/
def class_copy (s : List Nat) (fuel : Nat) (i : Nat) (acc : List Nat) :
    Except Err (List Nat × Nat) :=
  match fuel with
  | 0 => .error .fuel
  | fuel + 1 => do
    let b ← str_get s i
    if b = 93 then .ok (acc, i)
    else
      if i + 1 = s.length then .error .badSyntax
      else class_copy s fuel (i + 1) (acc ++ [b])

/-- One pass of the `tokenise` loop's scanning switch at position `i`:
the `[...]` copy (which leaves the scan on the `]`, emitted by the
fall-through into the code-point switch) or a 1–4 byte code point.
Returns the bytes emitted and the index of the last byte consumed. -/
def atom_scan (s : List Nat) (i : Nat) : Except Err (List Nat × Nat) := do
  let b ← str_get s i
  if b = 91 then do
    let r ← class_copy s (s.length + 1) i []
    .ok (r.1 ++ [93], r.2)
  else if utf_bytes b = 2 then
    if i < wsub s.length 1 then do
      let b1 ← str_get s (i + 1)
      .ok ([b, b1], i + 1)
    else .error .invalidUtf8
  else if utf_bytes b = 3 then
    if i < wsub s.length 2 then do
      let b1 ← str_get s (i + 1)
      let b2 ← str_get s (i + 2)
      .ok ([b, b1, b2], i + 2)
    else .error .invalidUtf8
  else if utf_bytes b = 4 then
    if i < wsub s.length 3 then do
      let b1 ← str_get s (i + 1)
      let b2 ← str_get s (i + 2)
      let b3 ← str_get s (i + 3)
      .ok ([b, b1, b2, b3], i + 3)
    else .error .invalidUtf8
  else .ok ([b], i)

/-- One full iteration of the `tokenise` loop body after the null skip:
scan the atom, then (with `n` the byte after the scan position) skip the
concat for `|`/`(`, consume the escaped byte after a backslash, and append
the implicit-concatenation null iff `n` is nonzero and none of
`) | * + ?`.  Returns the emitted bytes and the next loop index. -/
def tokenise_body (s : List Nat) (i : Nat) : Except Err (List Nat × Nat) := do
  let r ← atom_scan s i
  let em := r.1
  let ie := r.2
  let lastb ← str_get s ie
  let n := peek_next s ie
  if lastb = 124 ∨ lastb = 40 then .ok (em, ie + 1)
  else
    let step : List Nat × Nat :=
      if lastb = 92 ∧ n ≠ 0 then (em ++ [n], ie + 1) else (em, ie)
    if n ≠ 0 ∧ n ≠ 41 ∧ n ≠ 124 ∧ n ≠ 42 ∧ n ≠ 43 ∧ n ≠ 63 then
      .ok (step.1 ++ [0], step.2 + 1)
    else .ok (step.1, step.2 + 1)

/-- The `tokenise` loop: skip embedded nulls, run the body per atom. -/
def tokenise_loop (s : List Nat) (fuel : Nat) (i : Nat) (acc : List Nat) :
    Except Err (List Nat) :=
  match fuel with
  | 0 => .error .fuel
  | fuel + 1 =>
    if h : i < s.length then
      if s.get ⟨i, h⟩ = 0 then tokenise_loop s fuel (i + 1) acc
      else do
        let r ← tokenise_body s i
        tokenise_loop s fuel r.2 (acc ++ r.1)
    else .ok acc

/-- `nfa_vm::tokenise`. -/
def tokenise (regex : List Nat) : Except Err (List Nat) :=
  tokenise_loop regex (regex.length + 1) 0 []

/-- `nfa_vm::opt_precedence`. -/
def opt_precedence (c : Nat) : Except Err Nat :=
  if c = 92 then .ok 100
  else if c = 40 then .ok 90
  else if c = 91 then .ok 80
  else if c = 63 ∨ c = 42 ∨ c = 43 then .ok 70
  else if c = 0 then .ok 60
  else if c = 124 then .ok 50
  else .error .invalidArgument

/-- `nfa_vm::pop_stack_presedence` (operator stacks are head-topped
lists; `processed` grows at its end). -/
def pop_stack_presedence_loop (c : Nat) (fuel : Nat) (optstack processed : List Nat) :
    Except Err (List Nat × List Nat) :=
  match fuel with
  | 0 => .error .fuel
  | fuel + 1 =>
    match optstack with
    | [] => .ok ([c], processed)
    | back :: rest => do
      let pc ← opt_precedence c
      let pb ← opt_precedence back
      if pc > pb ∨ back = 40 then .ok (c :: optstack, processed)
      else pop_stack_presedence_loop c fuel rest (processed ++ [back])

def pop_stack_presedence (c : Nat) (optstack processed : List Nat) :
    Except Err (List Nat × List Nat) :=
  pop_stack_presedence_loop c (optstack.length + 1) optstack processed

/-- The `)` pop loop of the shunting-yard pass: `back()` on an empty stack
is undefined behaviour; popping the stack empty without meeting `(` is the
stray-`)` error. -/
def sy_rparen_loop (fuel : Nat) (optstack processed : List Nat) :
    Except Err (List Nat × List Nat) :=
  match fuel with
  | 0 => .error .fuel
  | fuel + 1 =>
    match optstack with
    | [] => .error .ub
    | back :: rest =>
      if back = 40 then .ok (rest, processed ++ [41])
      else
        if rest = [] then .error .badSyntax
        else sy_rparen_loop fuel rest (processed ++ [back])

/-- The main loop of `nfa_vm::nearly_shunting_yard`. -/
def sy_loop (s : List Nat) (fuel : Nat) (i : Nat) (optstack processed : List Nat) :
    Except Err (List Nat) :=
  match fuel with
  | 0 => .error .fuel
  | fuel + 1 =>
    if i < s.length then do
      let b ← str_get s i
      if b = 92 then do
        let c ← str_get s (i + 1)
        sy_loop s fuel (i + 2) optstack (processed ++ [92, c])
      else if b = 40 then
        sy_loop s fuel (i + 1) (40 :: optstack) (processed ++ [40])
      else if b = 41 then do
        let r ← sy_rparen_loop (optstack.length + 1) optstack processed
        sy_loop s fuel (i + 1) r.1 r.2
      else if b = 91 then do
        let r ← class_copy s (s.length + 1) i []
        sy_loop s fuel (r.2 + 1) optstack (processed ++ r.1 ++ [93])
      else if b = 93 then .error .badSyntax
      else if b = 63 ∨ b = 42 ∨ b = 43 ∨ b = 0 ∨ b = 124 then do
        let r ← pop_stack_presedence b optstack processed
        sy_loop s fuel (i + 1) r.1 r.2
      else
        match utf_bytes b with
        | 2 =>
          if i < wsub s.length 1 then do
            let b1 ← str_get s (i + 1)
            sy_loop s fuel (i + 2) optstack (processed ++ [b, b1])
          else .error .invalidUtf8
        | 3 =>
          if i < wsub s.length 2 then do
            let b1 ← str_get s (i + 1)
            let b2 ← str_get s (i + 2)
            sy_loop s fuel (i + 3) optstack (processed ++ [b, b1, b2])
          else .error .invalidUtf8
        | 4 =>
          if i < wsub s.length 3 then do
            let b1 ← str_get s (i + 1)
            let b2 ← str_get s (i + 2)
            let b3 ← str_get s (i + 3)
            sy_loop s fuel (i + 4) optstack (processed ++ [b, b1, b2, b3])
          else .error .invalidUtf8
        | _ => sy_loop s fuel (i + 1) optstack (processed ++ [b])
    else .ok (processed ++ optstack)

/-- `nfa_vm::nearly_shunting_yard`. -/
def nearly_shunting_yard (tokenised : List Nat) : Except Err (List Nat) :=
  sy_loop tokenised (2 * tokenised.length + 2) 0 [] []

/-- `nfa_frag`: an entry op and the dangling list, kept as the slot
references `fstart`/`fend` (the C++ `op**` fields). -/
structure Frag where
  sp : Nat
  fstart : Nat × Bool
  fend : Nat × Bool
deriving DecidableEq, Repr

/-- `nfa_vm::patch`: rewrite the whole dangling chain of `f` to point at
op `pos`.  The chain is read through the punned slot links; meeting a real
op pointer inside the chain would be the C++ reinterpretation of an `op`
as an `op*` slot, i.e. undefined behaviour. -/
def patch_loop (fuel : Nat) (prog : List Op) (next : Lk) (pos : Nat) :
    Except Err (List Op) :=
  match fuel with
  | 0 => .error .fuel
  | fuel + 1 =>
    match next with
    | none => .ok prog
    | some (.toOp _) => .error .ub
    | some (.toSlot i rb) => do
      let n2 ← read_slot prog (i, rb)
      let prog ← write_slot prog (i, rb) (some (.toOp pos))
      patch_loop fuel prog n2 pos

def patch (prog : List Op) (f : Frag) (pos : Nat) : Except Err (List Op) := do
  let next ← read_slot prog f.fstart
  let prog ← write_slot prog f.fstart (some (.toOp pos))
  patch_loop (2 * prog.length + 2) prog next pos

/-- `nfa_vm::fuse`: write the address of `f2`'s start slot into the slot
`f1.fend` points at.  (As in the source, which takes its fragments by
value, the caller's `end` field is left stale.) -/
def fuse (prog : List Op) (f1 f2 : Frag) : Except Err (List Op) :=
  write_slot prog f1.fend (some (.toSlot f2.fstart.1 f2.fstart.2))

/-- Compiler state for `compile_nfa_sg`.  The fragment stack is a
head-topped list. -/
structure CState where
  prog : List Op
  fstack : List Frag
  lsave : Nat
  rsave : Nat
  classC : Nat
  classes : List Utf8Bitmap
  regexChars : Utf8Bitmap
  savePoints : Nat
deriving DecidableEq, Repr

/-- `nfa_vm::compile_char`: emit ANY for `.`, otherwise decode the code
point (recording it in `regex_chars`) and emit CHAR; push the fragment.
Returns the updated state and the index of the last byte consumed. -/
def compile_char (st : CState) (processed : List Nat) (i : Nat) :
    Except Err (CState × Nat) := do
  let b ← str_get processed i
  if b = 46 then
    let idx := st.prog.length
    let st1 := { st with prog := st.prog ++ [⟨OpType.ANY, 0, none, none⟩], fstack := ⟨idx, (idx, false), (idx, false)⟩ :: st.fstack }
    .ok (st1, i)
  else do
    let r ← get_utf8_n_inc processed i
    let idx := st.prog.length
    let st1 := { st with prog := st.prog ++ [⟨OpType.CHAR, r.1, none, none⟩], regexChars := st.regexChars.insert_rev4byte r.1, fstack := ⟨idx, (idx, false), (idx, false)⟩ :: st.fstack }
    .ok (st1, r.2)

/-- One iteration of the `compile_nfa_sg` token dispatch at `processed[i]`;
returns the updated state and the next index. -/
def compile_step (st : CState) (processed : List Nat) (i : Nat) :
    Except Err (CState × Nat) := do
  let b ← str_get processed i
  if b = 92 then
    if peek_next processed i ≠ 0 then do
      let r ← compile_char st processed (i + 1)
      .ok (r.1, r.2 + 1)
    else .ok (st, i + 1)
  else if b = 40 then
    match st.fstack with
    | [] => .error .ub
    | top :: rest => do
      let idx := st.prog.length
      let prog := st.prog ++ [⟨OpType.SAVE, st.lsave, none, none⟩]
      let prog ← patch prog top idx
      let top := { top with fstart := (idx, false), fend := (idx, false) }
      .ok ({ st with prog := prog, fstack := top :: rest, lsave := st.lsave + 2 }, i + 1)
  else if b = 41 then
    match st.fstack with
    | [] => .error .ub
    | top :: rest => do
      let idx := st.prog.length
      let prog := st.prog ++ [⟨OpType.SAVE, st.rsave, none, none⟩]
      let prog ← patch prog top idx
      let top := { top with fstart := (idx, false), fend := (idx, false) }
      .ok ({ st with prog := prog, fstack := top :: rest, rsave := st.rsave + 2 }, i + 1)
  else if b = 91 then do
    let r ← char_class processed (i + 1)
    let idx := st.prog.length
    let st1 := { st with classes := st.classes ++ [r.1], prog := st.prog ++ [⟨OpType.CLASS, st.classC, none, none⟩], regexChars := st.regexChars.or_eq r.1, fstack := ⟨idx, (idx, false), (idx, false)⟩ :: st.fstack, classC := st.classC + 1 }
    .ok (st1, r.2 + 1)
  else if b = 93 then .error .badSyntax
  else if b = 63 then
    match st.fstack with
    | [] => .error .ub
    | top :: rest => do
      let idx := st.prog.length
      let prog := st.prog ++ [⟨OpType.SPLIT, 0, some (.toOp top.sp), none⟩]
      let prog ← write_slot prog top.fend (some (.toSlot idx true))
      let top := { top with fend := (idx, true), sp := idx }
      .ok ({ st with prog := prog, fstack := top :: rest }, i + 1)
  else if b = 42 then
    match st.fstack with
    | [] => .error .ub
    | top :: rest => do
      let idx := st.prog.length
      let prog := st.prog ++ [⟨OpType.SPLIT, 0, some (.toOp top.sp), none⟩]
      let prog ← patch prog top idx
      let top := ⟨idx, (idx, true), (idx, true)⟩
      .ok ({ st with prog := prog, fstack := top :: rest }, i + 1)
  else if b = 43 then
    match st.fstack with
    | [] => .error .ub
    | top :: rest => do
      let idx := st.prog.length
      let prog := st.prog ++ [⟨OpType.SPLIT, 0, some (.toOp top.sp), none⟩]
      let prog ← patch prog top idx
      let top := { top with fstart := (idx, true), fend := (idx, true) }
      .ok ({ st with prog := prog, fstack := top :: rest }, i + 1)
  else if b = 0 then
    match st.fstack with
    | f2 :: f1 :: rest => do
      let prog ← patch st.prog f1 f2.sp
      let f1 := { f1 with fstart := f2.fstart, fend := f2.fend }
      .ok ({ st with prog := prog, fstack := f1 :: rest }, i + 1)
    | _ => .error .ub
  else if b = 124 then
    match st.fstack with
    | f2 :: f1 :: rest => do
      let idx := st.prog.length
      let prog := st.prog ++
        [⟨OpType.SPLIT, 0, some (.toOp f1.sp), some (.toOp f2.sp)⟩]
      let prog ← fuse prog f1 f2
      let f1 := { f1 with sp := idx }
      .ok ({ st with prog := prog, fstack := f1 :: rest }, i + 1)
    | _ => .error .ub
  else do
    let r ← compile_char st processed i
    .ok (r.1, r.2 + 1)

def compile_loop (processed : List Nat) (fuel : Nat) (st : CState) (i : Nat) :
    Except Err CState :=
  match fuel with
  | 0 => .error .fuel
  | fuel + 1 =>
    if i < processed.length then
      match compile_step st processed i with
      | .error e => .error e
      | .ok (st, i2) => compile_loop processed fuel st i2
    else .ok st

/-- `nfa_vm::compile_nfa_sg`: emit the initial SAVE, run the token loop,
require exactly two remaining fragments, then emit `SAVE 1` and `MATCH`
and patch both chains.  Returns the program, `save_points` and the class
table (plus `regex_chars`). -/
def compile_nfa_sg (processed : List Nat) :
    Except Err (List Op × Nat × List Utf8Bitmap × Utf8Bitmap) := do
  let st0 : CState :=
    { prog := [⟨OpType.SAVE, 0, none, none⟩],
      fstack := [⟨0, (0, false), (0, false)⟩],
      lsave := 2, rsave := 3, classC := 0, classes := [],
      regexChars := Utf8Bitmap.empty, savePoints := 2 }
  let st ← compile_loop processed (processed.length + 1) st0 0
  match st.fstack with
  | [ftop, fbot] => do
    let sIdx := st.prog.length
    let prog := st.prog ++ [⟨OpType.SAVE, 1, none, none⟩]
    let prog ← patch prog fbot ftop.sp
    let prog ← patch prog ftop sIdx
    let prog := prog ++ [⟨OpType.MATCH, 0, none, none⟩]
    let prog ← write_slot prog (prog.length - 2, false) (some (.toOp (prog.length - 1)))
    .ok (prog, st.lsave, st.classes, st.regexChars)
  | _ => .error .badSyntax

/-- Follow `lb` links through SAVE ops to the first non-SAVE op index. -/
def follow_save (prog : List Op) (fuel : Nat) (l : Lk) : Except Err Nat :=
  match fuel with
  | 0 => .error .fuel
  | fuel + 1 => do
    let j ← link_idx l
    match prog.get? j with
    | none => .error .oob
    | some o => if o.opt = OpType.SAVE then follow_save prog fuel o.lb else .ok j

/-- The cumulative SAVE counts (`save_count` in `create_prog_ruin`). -/
def save_counts (prog : List Op) : List Nat :=
  (prog.foldl (fun acc o =>
    (acc.1 + (if o.opt = OpType.SAVE then 1 else 0),
     acc.2 ++ [acc.1 + (if o.opt = OpType.SAVE then 1 else 0)])) (0, [])).2

/-- Remap one link of a kept op: follow SAVE chains from the target, then
shift by the SAVE count at the landing index (null links are kept). -/
def ruin_link (prog : List Op) (sc : List Nat) (l : Lk) : Except Err Lk :=
  match l with
  | none => .ok none
  | some _ => do
    let j ← follow_save prog (prog.length + 1) l
    .ok (some (.toOp (j - (sc.get? j).getD 0)))

/-- `nfa_vm::create_prog_ruin`: drop SAVE ops, rewrite links to skip SAVE
chains, and compute the shifted start index. -/
def create_prog_ruin (prog : List Op) : Except Err (List Op × Nat) := do
  let sc := save_counts prog
  let start0 ←
    match prog.get? 0 with
    | some o =>
      if o.opt = OpType.SAVE then do
        let j ← follow_save prog (prog.length + 1) o.lb
        Except.ok (j - (sc.get? j).getD 0)
      else Except.ok 0
    | none => Except.error .oob
  let ruin ← prog.foldlM (fun acc o =>
    if o.opt = OpType.SAVE then Except.ok acc
    else do
      let lb ← ruin_link prog sc o.lb
      let rb ← ruin_link prog sc o.rb
      Except.ok (acc ++ [⟨o.opt, o.data, lb, rb⟩])) ([] : List Op)
  .ok (ruin, start0)

/-- A matcher thread: instruction index plus the capture vector
(`m_loc`). -/
structure Thread where
  pc : Nat
  mloc : List Nat
deriving DecidableEq, Repr

/-- The per-op `gen` stamps (`int64_t`, initially `-1`), threaded as
matcher state. -/
abbrev Gens := List Int

/-- `nfa_vm::new_thread`: skip when the op's `gen` equals the current
generation, stamp it, recurse through SPLIT (lb first) and SAVE (writing
`i + 1` with `uint32_t` wrap-around into the capture slot), and append
every other op to the pool.  Following a null successor dereferences a
null `op*`. -/
def new_thread (prog : List Op) (fuel : Nat) (gens : Gens) (pool : List Thread)
    (t : Thread) (i : Nat) (gen_id : Int) : Except Err (Gens × List Thread) :=
  match fuel with
  | 0 => .error .fuel
  | fuel + 1 =>
    match prog.get? t.pc, gens.get? t.pc with
    | some o, some g =>
      if g = gen_id then .ok (gens, pool)
      else
        let gens := gens.set t.pc gen_id
        if o.opt = OpType.SPLIT then do
          let il ← link_idx o.lb
          let r1 ← new_thread prog fuel gens pool ⟨il, t.mloc⟩ i gen_id
          let ir ← link_idx o.rb
          new_thread prog fuel r1.1 r1.2 ⟨ir, t.mloc⟩ i gen_id
        else if o.opt = OpType.SAVE then do
          if o.data < t.mloc.length then do
            let mloc := t.mloc.set o.data ((i + 1) % 4294967296)
            let il ← link_idx o.lb
            new_thread prog fuel gens pool ⟨il, mloc⟩ i gen_id
          else .error .ub
        else .ok (gens, pool ++ [t])
    | _, _ => .error .oob

/-- One scan of the current thread list at input position `i`
(the `for (j …)` loop of `nfa_vm::match`). -/
def match_scan (prog : List Op) (classes : List Utf8Bitmap) (str : List Nat)
    (i : Nat) (gen_id : Int) :
    List Thread → Gens → List Thread → List (List Nat) → Bool →
    Except Err (Gens × List Thread × List (List Nat) × Bool)
  | [], gens, nxt, mts, matchv => .ok (gens, nxt, mts, matchv)
  | t :: rest, gens, nxt, mts, matchv =>
    match prog.get? t.pc with
    | none => .error .ub
    | some o =>
      match o.opt with
      | OpType.CHAR => do
        let r ← get_utf8_n_inc str i
        if r.1 = o.data then do
          let il ← link_idx o.lb
          let q ← new_thread prog (prog.length + 2) gens nxt ⟨il, t.mloc⟩ i gen_id
          match_scan prog classes str i gen_id rest q.1 q.2 mts matchv
        else match_scan prog classes str i gen_id rest gens nxt mts matchv
      | OpType.CLASS => do
        let r ← get_utf8_n_inc str i
        match classes.get? o.data with
        | none => .error .oob
        | some cls =>
          if cls.test_rev4byte r.1 then do
            let il ← link_idx o.lb
            let q ← new_thread prog (prog.length + 2) gens nxt ⟨il, t.mloc⟩ i gen_id
            match_scan prog classes str i gen_id rest q.1 q.2 mts matchv
          else match_scan prog classes str i gen_id rest gens nxt mts matchv
      | OpType.ANY => do
        let il ← link_idx o.lb
        let q ← new_thread prog (prog.length + 2) gens nxt ⟨il, t.mloc⟩ i gen_id
        match_scan prog classes str i gen_id rest q.1 q.2 mts matchv
      | OpType.MATCH =>
        match_scan prog classes str i gen_id rest gens nxt (mts ++ [t.mloc]) true
      | _ => match_scan prog classes str i gen_id rest gens nxt mts matchv

/-- The input loop of `nfa_vm::match` (`i` advances by `utf_bytes`). -/
def match_loop (prog : List Op) (classes : List Utf8Bitmap)
    (save_points : Nat) (unanchored match_one : Bool) (str : List Nat)
    (fuel : Nat) (i : Nat) (cur : List Thread) (gens : Gens)
    (mts : List (List Nat)) (matchv : Bool) :
    Except Err (Bool × List (List Nat) × Gens) :=
  match fuel with
  | 0 => .error .fuel
  | fuel + 1 =>
    if h : i < str.length then do
      let gen_id : Int := (i : Int)
      let st ←
        if unanchored then
          new_thread prog (prog.length + 2) gens cur
            ⟨0, List.replicate save_points 0⟩ ((i + 4294967295) % 4294967296) gen_id
        else pure (gens, cur)
      let r ← match_scan prog classes str i gen_id st.2 st.1 [] mts matchv
      if match_one ∧ r.2.2.2 then .ok (true, r.2.2.1, r.1)
      else
        match_loop prog classes save_points unanchored match_one str fuel
          (i + utf_bytes (str.get ⟨i, h⟩)) r.2.1 r.1 r.2.2.1 r.2.2.2
    else
      let fin := cur.foldl (fun acc t =>
        match prog.get? t.pc with
        | some o =>
          if o.opt = OpType.MATCH then (acc.1 ++ [t.mloc], true) else acc
        | none => acc) (mts, matchv)
      .ok (fin.2, fin.1, gens)

/-- `nfa_vm::match<Unanchored, Match_one>`: clear the match info
(`gen_id` back to 0 — the op stamps themselves are NOT reset), seed the
entry thread at `i = -1` (`uint32_t`), and run the loop. -/
def nfa_match (prog : List Op) (classes : List Utf8Bitmap) (save_points : Nat)
    (gens : Gens) (unanchored match_one : Bool) (str : List Nat) :
    Except Err (Bool × List (List Nat) × Gens) := do
  let st ← new_thread prog (prog.length + 2) gens []
    ⟨0, List.replicate save_points 0⟩ 4294967295 0
  match_loop prog classes save_points unanchored match_one str
    (str.length + 1) 0 st.2 st.1 [] false

/-- `utf8_ptrmap<cache_element>`: tiers of nullable pointers, with the
pointees modelled as ring-buffer indices.  `ascii` is the always-present
256-slot array (value-initialised to null), `latin` a lazily allocated
2048-slot array, `bmp` 32 lazily allocated rows of 2048 (allocated WITHOUT
value-initialisation in the source, so a never-written slot of an
allocated row is uninitialised), `others` 1024 null-initialised rows. -/
structure PtrMap where
  ascii : List (Nat × Nat)
  latin : Option (List (Nat × Nat))
  bmp : Option (List (Nat × List (Nat × Nat)))
  others : Option (List (Nat × List (Nat × Nat)))
deriving DecidableEq, Repr

def PtrMap.empty : PtrMap := ⟨[], none, none, none⟩

def assoc_find (l : List (Nat × Nat)) (k : Nat) : Option Nat :=
  (l.find? (fun p => p.1 = k)).map (fun p => p.2)

def assoc_set (l : List (Nat × Nat)) (k v : Nat) : List (Nat × Nat) :=
  match l.find? (fun p => p.1 = k) with
  | some _ => l.map (fun p => if p.1 = k then (p.1, v) else p)
  | none => l ++ [(k, v)]

def PtrMap.get1 (m : PtrMap) (a : Nat) : Option Nat := assoc_find m.ascii (a % 256)

def PtrMap.get2 (m : PtrMap) (a b : Nat) : Option Nat :=
  match m.latin with
  | none => none
  | some t => assoc_find t (utf_2byte_h a b)

/-- 3-byte lookup: a missing row of the `bmp` tier is a null `T**`
dereferenced by `bmp[x][y]`, and a never-written slot of an allocated row
is an uninitialised pointer — both undefined behaviour. -/
def PtrMap.get3 (m : PtrMap) (a b c : Nat) : Except Err (Option Nat) :=
  match m.bmp with
  | none => .ok none
  | some rows =>
    let idx := utf_3byte_h a b c
    match (rows.find? (fun p => p.1 = idx / 2048)).map (fun p => p.2) with
    | none => .error .ub
    | some row =>
      match assoc_find row (idx % 2048) with
      | none => .error .ub
      | some v => .ok (some v)

def PtrMap.get4 (m : PtrMap) (a b c d : Nat) : Except Err (Option Nat) :=
  match m.others with
  | none => .ok none
  | some rows =>
    let idx := utf_4byte_h a b c d
    match (rows.find? (fun p => p.1 = idx / 2048)).map (fun p => p.2) with
    | none => .error .ub
    | some row => .ok (assoc_find row (idx % 2048))

/-- `utf8_ptrmap::set_rev4byte` — a lookup despite the name.  Ported with
the source's control flow: the 2-byte case lacks a `return` and falls
through into the 3-byte lookup, and the 4-byte case passes the whole word
(truncated to its low byte) as `d`. -/
def PtrMap.set_rev4byte (m : PtrMap) (bytes : Nat) : Except Err (Option Nat) :=
  let a := bytes % 256
  match utf_bytes a with
  | 2 => m.get3 a (bytes / 256 % 256) (bytes / 65536 % 256)
  | 3 => m.get3 a (bytes / 256 % 256) (bytes / 65536 % 256)
  | 4 => m.get4 a (bytes / 256 % 256) (bytes / 65536 % 256) (bytes % 256)
  | _ => .ok (m.get1 a)

def PtrMap.add_element1 (m : PtrMap) (a : Nat) (ptr : Nat) : PtrMap :=
  { m with ascii := assoc_set m.ascii (a % 256) ptr }

def PtrMap.add_element2 (m : PtrMap) (a b : Nat) (ptr : Nat) : PtrMap :=
  { m with latin := some (assoc_set (m.latin.getD []) (utf_2byte_h a b) ptr) }

def PtrMap.add_element3 (m : PtrMap) (a b c : Nat) (ptr : Nat) : PtrMap :=
  let idx := utf_3byte_h a b c
  let rows := m.bmp.getD []
  let row := ((rows.find? (fun p => p.1 = idx / 2048)).map (fun p => p.2)).getD []
  let row := assoc_set row (idx % 2048) ptr
  let rows :=
    match rows.find? (fun p => p.1 = idx / 2048) with
    | some _ => rows.map (fun p => if p.1 = idx / 2048 then (p.1, row) else p)
    | none => rows ++ [(idx / 2048, row)]
  { m with bmp := some rows }

def PtrMap.add_element4 (m : PtrMap) (a b c d : Nat) (ptr : Nat) : PtrMap :=
  let idx := utf_4byte_h a b c d
  let rows := m.others.getD []
  let row := ((rows.find? (fun p => p.1 = idx / 2048)).map (fun p => p.2)).getD []
  let row := assoc_set row (idx % 2048) ptr
  let rows :=
    match rows.find? (fun p => p.1 = idx / 2048) with
    | some _ => rows.map (fun p => if p.1 = idx / 2048 then (p.1, row) else p)
    | none => rows ++ [(idx / 2048, row)]
  { m with others := some rows }

/-- `utf8_ptrmap::add_rev4byte_el` (correct per-byte-count dispatch). -/
def PtrMap.add_rev4byte_el (m : PtrMap) (bytes : Nat) (ptr : Nat) : PtrMap :=
  let a := bytes % 256
  match utf_bytes a with
  | 2 => m.add_element2 a (bytes / 256 % 256) ptr
  | 3 => m.add_element3 a (bytes / 256 % 256) (bytes / 65536 % 256) ptr
  | 4 => m.add_element4 a (bytes / 256 % 256) (bytes / 65536 % 256) (bytes / 16777216 % 256) ptr
  | _ => m.add_element1 a ptr

/-- A DFA cache state (`nfa_vm::cache_element`). -/
structure CacheElement where
  filter : Utf8Bitmap
  next_state : PtrMap
  ops : Hybrid
deriving DecidableEq, Repr

def CacheElement.default : CacheElement :=
  ⟨Utf8Bitmap.empty, PtrMap.empty, Hybrid.default⟩

/-- `cache_element::step` (the non-const overload used by `run`):
consult the filter, then either the code-point slot or slot 255. -/
def cache_element_step (ce : CacheElement) (s : List Nat) (i : Nat) :
    Except Err (Option Nat) := do
  let r ← get_utf8_n_inc s i
  if ce.filter.test_rev4byte r.1 then ce.next_state.set_rev4byte r.1
  else .ok (ce.next_state.get1 255)

/-- `cache_element::construct_next`: scope a fresh hybrid set to the
program, then for each live op resolve the epsilon closure of its `lb`
into the new state when the op can consume `utf8` (CHAR on equality,
CLASS on membership falling through to the ANY resolution, ANY always).
MATCH is ignored, SPLIT and SAVE fall to the `default: continue`. -/
def construct_next (ce : CacheElement) (utf8 : Nat) (oplist : List Op)
    (classes : List Utf8Bitmap) : Except Err CacheElement := do
  let ops0 ← Hybrid.default.set_range oplist.length
  let r ← ce.ops.dense.foldlM (fun (acc : Hybrid × Utf8Bitmap) j => do
    match oplist.get? j with
    | none => Except.error .oob
    | some o =>
      match o.opt with
      | OpType.CHAR =>
        if utf8 = o.data then do
          let il ← link_idx o.lb
          resolve_split_filter acc.1 il oplist acc.2 classes
        else Except.ok acc
      | OpType.CLASS =>
        match classes.get? o.data with
        | none => Except.error .oob
        | some cls =>
          if cls.test_rev4byte utf8 then do
            let il ← link_idx o.lb
            resolve_split_filter acc.1 il oplist acc.2 classes
          else Except.ok acc
      | OpType.ANY => do
        let il ← link_idx o.lb
        resolve_split_filter acc.1 il oplist acc.2 classes
      | _ => Except.ok acc) (ops0, Utf8Bitmap.empty)
  .ok ⟨r.2, PtrMap.empty, r.1⟩

/-- The ring-buffered FIFO cache (`nfa_vm::cache`). -/
structure Cache where
  cstart : Nat
  cend : Nat
  size_less1 : Nat
  overflow_lim : Nat
  rebuild_lim : Nat
  overflow_c : Nat
  rebuild_c : Nat
  strt : CacheElement
  ring_buffer : List CacheElement
  tree : List (Hybrid × Nat)
deriving DecidableEq, Repr

def Cache.default : Cache :=
  ⟨0, 0, 0, 5, 5, 0, 0, CacheElement.default, [], []⟩

/-- Bit width of a natural number (fuelled halving). -/
def bit_width_aux : Nat → Nat → Nat
  | 0, _ => 0
  | fuel + 1, n => if n = 0 then 0 else bit_width_aux fuel (n / 2) + 1

/-- The `countl_zero` used by `cache::resize` (the source's
floating-point bit trick computes exactly this for the arguments below
`2 ^ 31` that `resize` feeds it). -/
def countl_zero32 (n : Nat) : Nat := 32 - bit_width_aux 32 n

/-- `cache::resize`: snap to the next power of two below `n + 1`,
reallocate the ring and reset everything. -/
def cache_resize (c : Cache) (n : Nat) : Cache :=
  let lg := 32 - countl_zero32 (n + 1) - 1
  let new_size := 2 ^ lg
  { c with ring_buffer := List.replicate new_size CacheElement.default,
           size_less1 := new_size - 1, cstart := 0, cend := 0, tree := [] }

/-- `cache::operator[]`: ring access at `(idx + start) & size_less1`. -/
def cache_at (c : Cache) (idx : Nat) : Except Err CacheElement :=
  match c.ring_buffer.get? ((idx + c.cstart) % (c.size_less1 + 1)) with
  | some ce => .ok ce
  | none => .error .oob

def tree_count (c : Cache) (rep : Hybrid) : Bool :=
  c.tree.any (fun p => hkey_eq p.1 rep)

def tree_find (c : Cache) (rep : Hybrid) : Option Nat :=
  (c.tree.find? (fun p => hkey_eq p.1 rep)).map (fun p => p.2)

/-- Erase the first map entry whose key collates equal to `rep`. -/
def tree_erase (t : List (Hybrid × Nat)) (rep : Hybrid) : List (Hybrid × Nat) :=
  match t with
  | [] => []
  | p :: rest => if hkey_eq p.1 rep then rest else p :: tree_erase rest rep

/-- `cache::pop`: drop the oldest element's key and advance `start`. -/
def cache_pop (c : Cache) : Except Err Cache := do
  let e0 ← cache_at c 0
  .ok { c with tree := tree_erase c.tree e0.ops,
               cstart := (c.cstart + 1) % (c.size_less1 + 1) }

/-- `cache::push` (the rvalue overload `run` calls, whose full test
`(end + 1) == start` lacks the mask): evict and possibly reset, then
record the key at the raw `end` slot and store the element. -/
def cache_push (c : Cache) (ce : CacheElement) : Except Err Cache := do
  let c ←
    if c.cend + 1 = c.cstart then do
      let c ← cache_pop c
      let c := { c with overflow_c := c.overflow_c + 1 }
      if c.overflow_c = c.overflow_lim then
        pure { c with cstart := 0, cend := 0, tree := [],
                      rebuild_c := c.rebuild_c + 1 }
      else pure c
    else pure c
  .ok { c with tree := c.tree ++ [(ce.ops, c.cend)],
               ring_buffer := c.ring_buffer.set c.cend ce,
               cend := (c.cend + 1) % (c.size_less1 + 1) }

/-- `cache::init_s`: the seed state is the filtered closure from the
reduced program's start op. -/
def cache_init_s (c : Cache) (oplist : List Op) (st_op : Nat)
    (classes : List Utf8Bitmap) : Except Err Cache := do
  let ops0 ← Hybrid.default.set_range oplist.length
  let r ← resolve_split_filter ops0 st_op oplist Utf8Bitmap.empty classes
  .ok { c with strt := ⟨r.2, PtrMap.empty, r.1⟩ }

/-- The loop of `cache::run`.  `current_cel` is a REFERENCE TO `strt`, so
every state change overwrites the seed element in place; the transition
links added just before each overwrite are therefore lost with it, which
this port reproduces by writing and then replacing `strt`.  On the
rebuild-limit bail-out the source computes `&current_cel -
&ring_buffer[start]`, a pointer difference between unrelated objects —
undefined behaviour. -/
def cache_run_loop (oplist : List Op) (classes : List Utf8Bitmap)
    (s : List Nat) (st_op : Nat) (unanchored : Bool) :
    Nat → Nat → Cache → Except Err (Bool × Nat × Int × Cache)
  | 0, _, _ => .error .fuel
  | fuel + 1, idx, c =>
    if h : idx < s.length then do
      let nxtp ← cache_element_step c.strt s idx
      let c ←
        match nxtp with
        | some p =>
          match c.ring_buffer.get? p with
          | some ce => pure { c with strt := ce }
          | none => Except.error Err.oob
        | none =>
          if c.rebuild_lim = c.rebuild_c then Except.error Err.ub
          else do
            let u ← get_utf8_n_inc s idx
            let tmp ← construct_next c.strt u.1 oplist classes
            if tree_count c tmp.ops then do
              let ti := (tree_find c tmp.ops).getD 0
              let posAbs := (ti + c.cstart) % (c.size_less1 + 1)
              let ns :=
                if c.strt.filter.test1 u.1 then
                  c.strt.next_state.add_rev4byte_el u.1 posAbs
                else c.strt.next_state.add_element1 255 posAbs
              let c := { c with strt := { c.strt with next_state := ns } }
              match c.ring_buffer.get? posAbs with
              | some ce => pure { c with strt := ce }
              | none => Except.error Err.oob
            else do
              let c ← cache_push c tmp
              let posAbs := (c.cend + c.size_less1) % (c.size_less1 + 1)
              let ns :=
                if c.strt.filter.test1 u.1 then
                  c.strt.next_state.add_rev4byte_el u.1 posAbs
                else c.strt.next_state.add_element1 255 posAbs
              let c := { c with strt := { c.strt with next_state := ns } }
              match c.ring_buffer.get? posAbs with
              | some ce => pure { c with strt := ce }
              | none => Except.error Err.oob
      let t ← c.strt.ops.hstest (oplist.length - 1)
      if t then .ok (true, idx + utf_bytes (s.get ⟨idx, h⟩), 0, c)
      else do
        let c ←
          if unanchored then do
            let r ← resolve_split_filter c.strt.ops st_op oplist c.strt.filter classes
            pure { c with strt := { c.strt with ops := r.1, filter := r.2 } }
          else pure c
        cache_run_loop oplist classes s st_op unanchored fuel
          (idx + utf_bytes (s.get ⟨idx, h⟩)) c
    else .ok (false, idx, -1, c)

/-- `cache::run<Unanchored>`: if the seed state already holds the MATCH
index return at once, otherwise step per code point. -/
def cache_run (c : Cache) (s : List Nat) (i0 : Nat) (oplist : List Op)
    (st_op : Nat) (classes : List Utf8Bitmap) (unanchored : Bool) :
    Except Err (Bool × Nat × Int × Cache) := do
  let t ← c.strt.ops.hstest (oplist.length - 1)
  if t then .ok (true, i0, 0, c)
  else cache_run_loop oplist classes s st_op unanchored (s.length + 1) i0 c

/-- The scan of the NFA-fallback body inside `nfa_vm::test`, with the
source's fall-through: a CHAR op whose code point matches falls INTO the
CLASS test (indexing the class table with the packed character), a CLASS
member falls into the ANY resolution; MATCH returns true at once
(signalled by `none`). -/
def test_scan (ruin : List Op) (classes : List Utf8Bitmap) (utf8 : Nat) :
    List Nat → Hybrid → Except Err (Option Hybrid)
  | [], next => .ok (some next)
  | j :: rest, next =>
    match ruin.get? j with
    | none => .error .oob
    | some o =>
      match o.opt with
      | OpType.CHAR =>
        if utf8 = o.data then
          match classes.get? o.data with
          | none => .error .oob
          | some cls =>
            if cls.test_rev4byte utf8 then do
              let il ← link_idx o.lb
              let next ← resolve_split next il ruin
              test_scan ruin classes utf8 rest next
            else test_scan ruin classes utf8 rest next
        else test_scan ruin classes utf8 rest next
      | OpType.CLASS =>
        match classes.get? o.data with
        | none => .error .oob
        | some cls =>
          if cls.test_rev4byte utf8 then do
            let il ← link_idx o.lb
            let next ← resolve_split next il ruin
            test_scan ruin classes utf8 rest next
          else test_scan ruin classes utf8 rest next
      | OpType.ANY => do
        let il ← link_idx o.lb
        let next ← resolve_split next il ruin
        test_scan ruin classes utf8 rest next
      | OpType.MATCH => .ok none
      | _ => test_scan ruin classes utf8 rest next

/-- The outer loop of `nfa_vm::test` (note `cache` is initialised `true`
and never cleared, and the loop's own `++i` advances a single byte). -/
def nfa_test_loop (ruin : List Op) (ruin_start : Nat)
    (classes : List Utf8Bitmap) (unanchored : Bool) (s : List Nat) :
    Nat → Nat → Hybrid → Hybrid → Cache → Except Err (Bool × Cache)
  | 0, _, _, _, _ => .error .fuel
  | fuel + 1, i, current, next, c =>
    if i < s.length then do
      let r ← cache_run c s i ruin ruin_start classes unanchored
      let c := r.2.2.2
      if r.1 then .ok (true, c)
      else
        if r.2.2.1 ≠ -1 then do
          let _ ← current.set_range ruin.length
          let next ← next.set_range ruin.length
          let e ← cache_at c r.2.2.1.toNat
          let current := e.ops
          let u ← get_utf8_n_inc s r.2.1
          let current ←
            if unanchored then resolve_split current ruin_start ruin
            else pure current
          let sc ← test_scan ruin classes u.1 current.dense next
          match sc with
          | none => .ok (true, c)
          | some nxt =>
            nfa_test_loop ruin ruin_start classes unanchored s fuel
              (r.2.1 + 1) nxt current.hsclear c
        else .ok (false, c)
    else do
      let t ← current.hstest (ruin.length - 1)
      .ok (t, c)

/-- `nfa_vm::test<Unanchored>`: reset the churn counters, then run from
the (possibly clobbered) cache; `current` and `next` start as
default-constructed hybrid sets with empty bitvector storage. -/
def nfa_test (ruin : List Op) (ruin_start : Nat) (classes : List Utf8Bitmap)
    (c0 : Cache) (unanchored : Bool) (s : List Nat) :
    Except Err (Bool × Cache) :=
  nfa_test_loop ruin ruin_start classes unanchored s (s.length + 1) 0
    Hybrid.default Hybrid.default { c0 with rebuild_c := 0, overflow_c := 0 }

/-- The compiled engine (`nfa_vm` members that survive construction). -/
structure Engine where
  prog : List Op
  prog_ruin : List Op
  prog_ruin_start : Nat
  classes : List Utf8Bitmap
  regex_chars : Utf8Bitmap
  save_points : Nat
  mem : Cache
deriving DecidableEq, Repr

/-- The `nfa_vm(const std::string&)` constructor: tokenise, shunting-yard,
NFA assembly, reduced program, then a 32-slot cache seeded by `init_s`. -/
def nfa_vm_new (regex : List Nat) : Except Err Engine := do
  let tokens ← tokenise regex
  let nqp ← nearly_shunting_yard tokens
  let r ← compile_nfa_sg nqp
  let ru ← create_prog_ruin r.1
  let c0 := cache_resize Cache.default 32
  let c ← cache_init_s c0 ru.1 ru.2 r.2.2.1
  .ok ⟨r.1, ru.1, ru.2, r.2.2.1, r.2.2.2, r.2.1, c⟩

/-- Fresh `gen` stamps: every op's `gen` is `-1` after construction. -/
def engine_gens0 (e : Engine) : Gens := List.replicate e.prog.length (-1)

/-- `engine.test(text)`. -/
def engine_test (e : Engine) (unanchored : Bool) (s : List Nat) :
    Except Err (Bool × Cache) :=
  nfa_test e.prog_ruin e.prog_ruin_start e.classes e.mem unanchored s

/-- `engine.match(text)` given the current `gen` stamps. -/
def engine_match (e : Engine) (gens : Gens) (unanchored match_one : Bool)
    (s : List Nat) : Except Err (Bool × List (List Nat) × Gens) :=
  nfa_match e.prog e.classes e.save_points gens unanchored match_one s

instance {ε α : Type} [DecidableEq ε] [DecidableEq α] :
    DecidableEq (Except ε α) := fun x y =>
  match x, y with
  | .ok a, .ok b =>
    if h : a = b then isTrue (by rw [h])
    else isFalse (fun hc => h (Except.ok.inj hc))
  | .error a, .error b =>
    if h : a = b then isTrue (by rw [h])
    else isFalse (fun hc => h (Except.error.inj hc))
  | .ok _, .error _ => isFalse (fun hc => Except.noConfusion hc)
  | .error _, .ok _ => isFalse (fun hc => Except.noConfusion hc)

/-- The byte slice `[a, b)` of a text, as the reporting loop prints it
(`for (k = matches[j][i]; k < matches[j][i+1]; ++k) … str[k]`). -/
def byte_slice (s : List Nat) (a b : Nat) : List Nat := (s.drop a).take (b - a)

/-- C1: the claim states that for every successfully compiled pattern and
every valid UTF-8 text, `test` and `match` (match_one, anchored) return
the same boolean.  They do not: for the pattern `a+b` on the text `aab`
the lazy-DFA `test` finds the match but the NFA `match` returns `false`
(its init closure and step 0 share generation 0, so the looping CHAR
thread is deduplicated away after the first `a`).  This theorem evaluates
both engines of the source at that failing input. -/
theorem C1_test_match_disagree :
    (nfa_vm_new [97, 43, 98]).bind
      (fun e => (engine_test e false [97, 97, 98]).map (fun r => r.1)) =
      .ok true ∧
    (nfa_vm_new [97, 43, 98]).bind
      (fun e => (engine_match e (engine_gens0 e) false true [97, 97, 98]).map
        (fun r => r.1)) =
      .ok false := by
  constructor <;> rfl

/-- The one-op program exercising `resolve_split`'s CLASS handling: a
single CLASS op over class 0. -/
def c2_ops : List Op := [⟨OpType.CLASS, 0, none, none⟩]

/-- Class 0 for `c2_ops`: the singleton class containing `a`. -/
def c2_classes : List Utf8Bitmap := [⟨[97], none, none, none⟩]

/-- C2: the claim states that the filter overload of `resolve_split`
records reachable indices once (true), inserts CHAR data into the filter
(true), and ORs the class bitmap into the filter on reaching CLASS.  The
last part is false: the branch that would do it tests `op.opt == SPLIT`
inside the `else` of the SPLIT case and is dead, so seeding the closure at
a CLASS op leaves the filter empty even though the class contains `a`. -/
theorem C2_class_never_reaches_filter :
    (do
      let h ← Hybrid.default.set_range 1
      resolve_split_filter h 0 c2_ops Utf8Bitmap.empty c2_classes :
        Except Err (Hybrid × Utf8Bitmap)) =
      .ok (⟨1, 8, [0]⟩, Utf8Bitmap.empty) ∧
    Utf8Bitmap.test1 ⟨[97], none, none, none⟩ 97 = true ∧
    Utf8Bitmap.test1 Utf8Bitmap.empty 97 = false := by
  refine ⟨by rfl, by rfl, by rfl⟩

/-- C3: the claim states that after `a |= b` membership in `a` is the
union of the previous memberships, with missing tiers allocated.  This
fails for the lazily allocated `latin` tier of 2-byte code points, which
`operator|=` never copies: with `a` empty and `b` containing U+00A2
(bytes C2 A2, reverse-packed 41666), after `a |= b` the code point is
still reported absent from `a`. -/
theorem C3_or_eq_drops_latin_tier :
    (Utf8Bitmap.empty.insert_rev4byte 41666).test_rev4byte 41666 = true ∧
    (Utf8Bitmap.empty.or_eq
      (Utf8Bitmap.empty.insert_rev4byte 41666)).test_rev4byte 41666 = false ∧
    (Utf8Bitmap.empty.or_eq
      (Utf8Bitmap.empty.insert_rev4byte 41666)).latin = none := by
  refine ⟨by rfl, by rfl, by rfl⟩

/-- C4: the claim states that `test` and `match` never fault on a
well-formed engine and valid UTF-8 text, including the empty string.
`match` indeed returns `false` on the empty text, but `test` skips its
loop (which is where `current.set_range` lives) and finishes with
`current.test(prog_ruin.size() - 1)` on a default-constructed hybrid set
whose bitvector store is empty: `bitvector::test` then reads
`data[idx >> 3]` out of bounds. -/
theorem C4_test_empty_text_reads_oob :
    (nfa_vm_new [97]).bind
      (fun e => (engine_test e false []).map (fun r => r.1)) =
      .error .oob ∧
    (nfa_vm_new [97]).bind
      (fun e => (engine_match e (engine_gens0 e) false true []).map
        (fun r => r.1)) =
      .ok false := by
  constructor <;> rfl

/-- C5 counterexample: the claim states that matching `a+` against `aa?`
succeeds with capture group 0 spanning `aa`, i.e. recorded offsets
`[0, 2]`.  The actual recorded vector is `[0, 1]`. -/
theorem C5_counterexample_group0_not_aa :
    ¬ ((nfa_vm_new [97, 43]).bind
        (fun e => (engine_match e (engine_gens0 e) false true [97, 97, 63]).map
          (fun r => (r.1, r.2.1))) =
        .ok (true, [[0, 2]])) := by
  decide

/-- C5 (amended): matching `a+` against `aa?` succeeds, but capture group
0's recorded offsets are `[0, 1]` — the slice is the first `a` only,
because the looping CHAR thread is dropped by the generation dedup at
step 0 and `match_one` returns at the first MATCH. -/
theorem C5_amended_group0_is_first_a :
    (nfa_vm_new [97, 43]).bind
      (fun e => (engine_match e (engine_gens0 e) false true [97, 97, 63]).map
        (fun r => (r.1, r.2.1))) =
      .ok (true, [[0, 1]]) ∧
    byte_slice [97, 97, 63] 0 1 = [97] := by
  constructor <;> rfl

/-- C6: compiling `(ab|a)(bc|c)` and running the anchored matcher on
`abc` succeeds with capture vector `[0, 3, 0, 2, 2, 3]`: group 1 is bytes
`[0, 2)` = `ab` and group 2 is bytes `[2, 3)` = `c`, the first
alternative winning through the lb-before-rb SPLIT order. -/
theorem C6_leftmost_alternative_wins :
    (nfa_vm_new [40, 97, 98, 124, 97, 41, 40, 98, 99, 124, 99, 41]).bind
      (fun e => (engine_match e (engine_gens0 e) false true [97, 98, 99]).map
        (fun r => (r.1, r.2.1))) =
      .ok (true, [[0, 3, 0, 2, 2, 3]]) ∧
    byte_slice [97, 98, 99] 0 2 = [97, 98] ∧
    byte_slice [97, 98, 99] 2 3 = [99] := by
  refine ⟨by rfl, by rfl, by rfl⟩

/-- C7 counterexample: the claim states a concatenation null is appended
iff the next significant byte is not one of `) | * + ?`.  For the pattern
`\a*` the byte after the escaped-pair atom is `*`, so the claim forbids a
null; the tokeniser emits `\a<NUL>*` because its lookahead byte for an
escape is the escaped character itself. -/
theorem C7_counterexample_escape_lookahead :
    tokenise [92, 97, 42] = .ok [92, 97, 0, 42] ∧
    ¬ (tokenise [92, 97, 42] = .ok [92, 97, 42]) := by
  refine ⟨by rfl, by decide⟩

/-- C9: the claim states that every compiled program's successor links
point to instructions of `prog`.  For the pattern `a|b|c` the second `|`
overwrites the head of the fused dangling chain (whose recorded end is
stale because `fuse` takes its fragments by value), orphaning `CHAR b`,
whose `lb` is left null — the compiled program below has
`prog[2] = CHAR 'b'` with no successor, although it ends in its single
MATCH and starts with `SAVE 0` as claimed. -/
theorem C9_alternation_orphans_link :
    ((tokenise [97, 124, 98, 124, 99]).bind nearly_shunting_yard).bind
      compile_nfa_sg =
      .ok ([⟨OpType.SAVE, 0, some (.toOp 5), none⟩,
            ⟨OpType.CHAR, 97, some (.toOp 6), none⟩,
            ⟨OpType.CHAR, 98, none, none⟩,
            ⟨OpType.SPLIT, 0, some (.toOp 1), some (.toOp 2)⟩,
            ⟨OpType.CHAR, 99, some (.toOp 6), none⟩,
            ⟨OpType.SPLIT, 0, some (.toOp 3), some (.toOp 4)⟩,
            ⟨OpType.SAVE, 1, some (.toOp 7), none⟩,
            ⟨OpType.MATCH, 0, none, none⟩],
           2, [], ⟨[97, 98, 99], none, none, none⟩) := by
  rfl

/-- C10: the claim states two successive `match` calls with the same text
return the same boolean and captures.  `clear_match_info` resets `gen_id`
to 0 but not the per-op `gen` stamps, so the second call's seed closure is
rejected by the stamps the first call left at generation 0: matching `a`
against `a` returns `true` with captures `[0, 1]` first, then `false`
with no captures. -/
theorem C10_second_match_call_differs :
    (nfa_vm_new [97]).bind (fun e =>
      (engine_match e (engine_gens0 e) false true [97]).bind (fun m1 =>
        (engine_match e m1.2.2 false true [97]).map (fun m2 =>
          (m1.1, m1.2.1, m2.1, m2.2.1)))) =
      .ok (true, [[0, 1]], false, []) := by
  rfl

theorem ok_bind {ε α β : Type} (a : α) (f : α → Except ε β) :
    (Except.ok a >>= f : Except ε β) = f a := rfl

theorem error_bind {ε α β : Type} (e : ε) (f : α → Except ε β) :
    ((Except.error e : Except ε α) >>= f : Except ε β) = Except.error e := rfl

theorem str_get_ok_le {s : List Nat} {i : Nat} {b : Nat}
    (h : str_get s i = .ok b) : i ≤ s.length := by
  unfold str_get at h
  split_ifs at h with h1 h2
  · exact Nat.le_of_lt h1
  · exact Nat.le_of_eq h2

theorem str_get_ok_mem {s : List Nat} {i : Nat} {b : Nat}
    (h : str_get s i = .ok b) : b ∈ s ∨ (i = s.length ∧ b = 0) := by
  unfold str_get at h
  split_ifs at h with h1 h2
  · exact Or.inl ((Except.ok.inj h) ▸ s.get_mem _ _)
  · exact Or.inr ⟨h2, (Except.ok.inj h).symm⟩

theorem str_get_lt {s : List Nat} {i : Nat} (h : i < s.length) :
    str_get s i = .ok (s.get ⟨i, h⟩) := by
  unfold str_get
  rw [dif_pos h]

theorem class_copy_ok_le (s : List Nat) :
    ∀ fuel i acc r j, class_copy s fuel i acc = .ok (r, j) → i ≤ s.length := by
  intro fuel
  induction fuel with
  | zero => intro i acc r j h; exact absurd h (fun hc => Except.noConfusion hc)
  | succ n _ =>
    intro i acc r j h
    unfold class_copy at h
    cases hg : str_get s i with
    | error e => rw [hg] at h; exact absurd h (fun hc => Except.noConfusion hc)
    | ok b => exact str_get_ok_le hg

theorem class_copy_subset (s : List Nat) :
    ∀ fuel i acc r j, class_copy s fuel i acc = .ok (r, j) →
      ∀ x ∈ r, x ∈ acc ∨ x ∈ s := by
  intro fuel
  induction fuel with
  | zero => intro i acc r j h; exact absurd h (fun hc => Except.noConfusion hc)
  | succ n ih =>
    intro i acc r j h x hx
    unfold class_copy at h
    cases hg : str_get s i with
    | error e => rw [hg] at h; exact absurd h (fun hc => Except.noConfusion hc)
    | ok b =>
      rw [hg, ok_bind] at h
      by_cases hb : b = 93
      · rw [if_pos hb] at h
        have : acc = r := congrArg Prod.fst (Except.ok.inj h)
        exact Or.inl (this ▸ hx)
      · rw [if_neg hb] at h
        by_cases hl : i + 1 = s.length
        · rw [if_pos hl] at h
          exact absurd h (fun hc => Except.noConfusion hc)
        · rw [if_neg hl] at h
          rcases ih (i + 1) (acc ++ [b]) r j h x hx with h1 | h1
          · rcases List.mem_append.mp h1 with h2 | h2
            · exact Or.inl h2
            · rcases str_get_ok_mem hg with hbs | ⟨hie, _⟩
              · exact Or.inr ((List.mem_singleton.mp h2) ▸ hbs)
              · exfalso
                have := class_copy_ok_le s n (i + 1) (acc ++ [b]) r j h
                omega
          · exact Or.inr h1

/-- On a pattern without embedded nulls, a successful `atom_scan` emits a
nonempty byte list containing no null byte. -/
theorem atom_scan_no_zero {s : List Nat} {i : Nat} {em : List Nat} {ie : Nat}
    (hz : (0 : Nat) ∉ s) (hi : i < s.length)
    (hs : atom_scan s i = .ok (em, ie)) : em ≠ [] ∧ (0 : Nat) ∉ em := by
  have hb0 : s.get ⟨i, hi⟩ ∈ s := s.get_mem _ _
  unfold atom_scan at hs
  rw [str_get_lt hi, ok_bind] at hs
  set b := s.get ⟨i, hi⟩ with hbdef
  have hbnz : b ≠ 0 := fun hc => hz (hc ▸ hb0)
  by_cases h91 : b = 91
  · rw [if_pos h91] at hs
    cases hcc : class_copy s (s.length + 1) i [] with
    | error e => rw [hcc, error_bind] at hs; exact Except.noConfusion hs
    | ok r =>
      rw [hcc, ok_bind] at hs
      have hem : r.1 ++ [93] = em := congrArg Prod.fst (Except.ok.inj hs)
      constructor
      · intro hc
        rw [← hem] at hc
        exact absurd (List.append_eq_nil.mp hc).2 (by simp)
      · intro hc
        rw [← hem, List.mem_append, List.mem_singleton] at hc
        rcases hc with h2 | h2
        · rcases class_copy_subset s (s.length + 1) i [] r.1 r.2
            (by rw [hcc]) 0 h2 with h3 | h3
          · exact absurd h3 (List.not_mem_nil 0)
          · exact hz h3
        · exact absurd h2 (by decide)
  · rw [if_neg h91] at hs
    by_cases hk2 : utf_bytes b = 2
    · rw [if_pos hk2] at hs
      by_cases hg : i < wsub s.length 1
      · rw [if_pos hg] at hs
        have hw : wsub s.length 1 = s.length - 1 := by
          unfold wsub
          rw [if_pos (by omega)]
        rw [hw] at hg
        have h1 : i + 1 < s.length := by omega
        rw [str_get_lt h1, ok_bind] at hs
        have hem : [b, s.get ⟨i + 1, h1⟩] = em := congrArg Prod.fst (Except.ok.inj hs)
        refine ⟨fun hc => by rw [← hem] at hc; exact List.noConfusion hc, ?_⟩
        intro hc
        rw [← hem, List.mem_cons, List.mem_singleton] at hc
        rcases hc with h2 | h2
        · exact hbnz h2.symm
        · exact hz (by rw [h2]; exact s.get_mem _ _)
      · rw [if_neg hg] at hs
        exact Except.noConfusion hs
    · rw [if_neg hk2] at hs
      by_cases hk3 : utf_bytes b = 3
      · rw [if_pos hk3] at hs
        by_cases hg : i < wsub s.length 2
        · rw [if_pos hg] at hs
          by_cases hlen : 2 ≤ s.length
          · have hw : wsub s.length 2 = s.length - 2 := by
              unfold wsub
              rw [if_pos hlen]
            rw [hw] at hg
            have h1 : i + 1 < s.length := by omega
            have h2 : i + 2 < s.length := by omega
            rw [str_get_lt h1, ok_bind, str_get_lt h2, ok_bind] at hs
            have hem : [b, s.get ⟨i + 1, h1⟩, s.get ⟨i + 2, h2⟩] = em :=
              congrArg Prod.fst (Except.ok.inj hs)
            refine ⟨fun hc => by rw [← hem] at hc; exact List.noConfusion hc, ?_⟩
            intro hc
            rw [← hem, List.mem_cons, List.mem_cons, List.mem_singleton] at hc
            rcases hc with h3 | h3 | h3
            · exact hbnz h3.symm
            · exact hz (by rw [h3]; exact s.get_mem _ _)
            · exact hz (by rw [h3]; exact s.get_mem _ _)
          · exfalso
            have hget1 : str_get s (i + 1) = .ok 0 := by
              unfold str_get
              rw [dif_neg (by omega), if_pos (by omega)]
            have hget2 : str_get s (i + 2) = Except.error Err.oob := by
              unfold str_get
              rw [dif_neg (by omega), if_neg (by omega)]
            rw [hget1, ok_bind, hget2, error_bind] at hs
            exact Except.noConfusion hs
        · rw [if_neg hg] at hs
          exact Except.noConfusion hs
      · rw [if_neg hk3] at hs
        by_cases hk4 : utf_bytes b = 4
        · rw [if_pos hk4] at hs
          by_cases hg : i < wsub s.length 3
          · rw [if_pos hg] at hs
            by_cases hlen : 3 ≤ s.length
            · have hw : wsub s.length 3 = s.length - 3 := by
                unfold wsub
                rw [if_pos hlen]
              rw [hw] at hg
              have h1 : i + 1 < s.length := by omega
              have h2 : i + 2 < s.length := by omega
              have h3 : i + 3 < s.length := by omega
              rw [str_get_lt h1, ok_bind, str_get_lt h2, ok_bind,
                str_get_lt h3, ok_bind] at hs
              have hem : [b, s.get ⟨i + 1, h1⟩, s.get ⟨i + 2, h2⟩, s.get ⟨i + 3, h3⟩] = em :=
                congrArg Prod.fst (Except.ok.inj hs)
              refine ⟨fun hc => by rw [← hem] at hc; exact List.noConfusion hc, ?_⟩
              intro hc
              rw [← hem, List.mem_cons, List.mem_cons, List.mem_cons,
                List.mem_singleton] at hc
              rcases hc with h4 | h4 | h4 | h4
              · exact hbnz h4.symm
              · exact hz (by rw [h4]; exact s.get_mem _ _)
              · exact hz (by rw [h4]; exact s.get_mem _ _)
              · exact hz (by rw [h4]; exact s.get_mem _ _)
            · exfalso
              have hget3 : str_get s (i + 3) = Except.error Err.oob := by
                unfold str_get
                rw [dif_neg (by omega), if_neg (by omega)]
              cases hg1 : str_get s (i + 1) with
              | error e => rw [hg1, error_bind] at hs; exact Except.noConfusion hs
              | ok b1 =>
                rw [hg1, ok_bind] at hs
                cases hg2 : str_get s (i + 2) with
                | error e => rw [hg2, error_bind] at hs; exact Except.noConfusion hs
                | ok b2 =>
                  rw [hg2, ok_bind, hget3, error_bind] at hs
                  exact Except.noConfusion hs
          · rw [if_neg hg] at hs
            exact Except.noConfusion hs
        · rw [if_neg hk4] at hs
          have hem : [b] = em := congrArg Prod.fst (Except.ok.inj hs)
          refine ⟨fun hc => by rw [← hem] at hc; exact List.noConfusion hc, ?_⟩
          intro hc
          rw [← hem, List.mem_singleton] at hc
          exact hbnz hc.symm

/-- C7 (amended): in the tokeniser's per-atom step on a pattern free of
embedded nulls, with `ie` the atom's scan-end position, `lastb` the byte
there and `n` the byte after it: after an atom ending in `|` or `(` no
concatenation null is appended, and otherwise a concatenation null is
appended (as the final emitted byte) iff `n` is nonzero and none of
`) | * + ?` — where for an escaped pair `n` is the escaped byte itself,
not the byte following the pair. -/
theorem C7_amended_concat_rule (s : List Nat) (i : Nat) (em : List Nat)
    (ie : Nat) (lastb : Nat) (out : List Nat) (i2 : Nat)
    (hz : (0 : Nat) ∉ s) (hi : i < s.length)
    (hs : atom_scan s i = .ok (em, ie))
    (hl : str_get s ie = .ok lastb)
    (hb : tokenise_body s i = .ok (out, i2)) :
    (lastb = 124 ∨ lastb = 40 → out.getLast? ≠ some 0) ∧
    (¬ (lastb = 124 ∨ lastb = 40) →
      (out.getLast? = some 0 ↔
        (peek_next s ie ≠ 0 ∧ peek_next s ie ≠ 41 ∧ peek_next s ie ≠ 124 ∧
         peek_next s ie ≠ 42 ∧ peek_next s ie ≠ 43 ∧ peek_next s ie ≠ 63))) := by
  obtain ⟨hne, hnz⟩ := atom_scan_no_zero hz hi hs
  have hlast_em : em.getLast? ≠ some 0 :=
    fun hc => hnz (List.mem_of_mem_getLast? hc)
  unfold tokenise_body at hb
  rw [hs, ok_bind] at hb
  dsimp only at hb
  rw [hl, ok_bind] at hb
  by_cases hsp : lastb = 124 ∨ lastb = 40
  · rw [if_pos hsp] at hb
    have hout : em = out := congrArg Prod.fst (Except.ok.inj hb)
    exact ⟨fun _ => hout ▸ hlast_em, fun hns => absurd hsp hns⟩
  · rw [if_neg hsp] at hb
    refine ⟨fun hc => absurd hc hsp, fun _ => ?_⟩
    by_cases hcond : peek_next s ie ≠ 0 ∧ peek_next s ie ≠ 41 ∧
        peek_next s ie ≠ 124 ∧ peek_next s ie ≠ 42 ∧ peek_next s ie ≠ 43 ∧
        peek_next s ie ≠ 63
    · rw [if_pos hcond] at hb
      have hout : _ = out := congrArg Prod.fst (Except.ok.inj hb)
      constructor
      · intro _
        exact hcond
      · intro _
        rw [← hout]
        by_cases hesc : lastb = 92 ∧ peek_next s ie ≠ 0
        · rw [if_pos hesc]
          exact List.getLast?_concat _
        · rw [if_neg hesc]
          exact List.getLast?_concat _
    · rw [if_neg hcond] at hb
      have hout : _ = out := congrArg Prod.fst (Except.ok.inj hb)
      constructor
      · intro hc
        exfalso
        rw [← hout] at hc
        by_cases hesc : lastb = 92 ∧ peek_next s ie ≠ 0
        · rw [if_pos hesc] at hc
          rw [List.getLast?_concat] at hc
          exact hesc.2 (Option.some.inj hc)
        · rw [if_neg hesc] at hc
          exact hlast_em hc
      · intro hc
        exact absurd hc hcond

/-- Witness for the C7 amended theorem at the pattern `\a*`: the atom is
the escaped pair `\a` (scan end at the backslash), the decision byte is
the escaped `a`, and the step emits the trailing concatenation null. -/
theorem C7_amended_concat_rule_witness :
    ([92, 97, 0] : List Nat).getLast? = some 0 ↔
      (peek_next [92, 97, 42] 0 ≠ 0 ∧ peek_next [92, 97, 42] 0 ≠ 41 ∧
       peek_next [92, 97, 42] 0 ≠ 124 ∧ peek_next [92, 97, 42] 0 ≠ 42 ∧
       peek_next [92, 97, 42] 0 ≠ 43 ∧ peek_next [92, 97, 42] 0 ≠ 63) :=
  (C7_amended_concat_rule [92, 97, 42] 0 [92] 0 92 [92, 97, 0] 2
    (by decide) (by decide) (by rfl) (by rfl) (by rfl)).2 (by decide)

theorem str_get_le_ok {s : List Nat} {j : Nat} (h : j ≤ s.length) :
    ∃ v, str_get s j = .ok v := by
  unfold str_get
  by_cases h1 : j < s.length
  · exact ⟨_, dif_pos h1⟩
  · refine ⟨0, ?_⟩
    rw [dif_neg h1, if_pos (by omega)]

theorem str_get_gt {s : List Nat} {j : Nat} (h : s.length < j) :
    str_get s j = .error .oob := by
  unfold str_get
  rw [dif_neg (by omega), if_neg (by omega)]

/-- C8 (amended): the decode step `get_utf8_n_inc` that compile and the
matching calls share raises `InvalidUtf8` exactly when the code point
starting at `idx` would run past the end of the string AND the string is
long enough for the `size_t` length guard not to wrap (at least
`utf_bytes - 1` bytes); continuation bytes are never validated, so any
in-bounds byte sequence decodes successfully (second conjunct).  In the
wrap cases the read goes out of bounds instead of raising `InvalidUtf8`. -/
theorem C8_amended_decode_errors (str : List Nat) (idx : Nat)
    (h : idx < str.length) :
    (get_utf8_n_inc str idx = .error .invalidUtf8 ↔
      (str.length < idx + utf_bytes (str.get ⟨idx, h⟩) ∧
       utf_bytes (str.get ⟨idx, h⟩) ≤ str.length + 1)) ∧
    ((∃ v, get_utf8_n_inc str idx = .ok v) ↔
      idx + utf_bytes (str.get ⟨idx, h⟩) ≤ str.length) := by
  have hlen1 : 1 ≤ str.length := by omega
  unfold get_utf8_n_inc
  rw [str_get_lt h, ok_bind]
  set b := str.get ⟨idx, h⟩ with hbdef
  have hk : utf_bytes b = 1 ∨ utf_bytes b = 2 ∨ utf_bytes b = 3 ∨
      utf_bytes b = 4 := by
    unfold utf_bytes
    split_ifs <;> omega
  rcases hk with hk | hk | hk | hk <;> rw [hk]
  · rw [if_neg (by decide : ¬(1 : Nat) = 2), if_neg (by decide : ¬(1 : Nat) = 3),
      if_neg (by decide : ¬(1 : Nat) = 4)]
    constructor
    · constructor
      · intro hc
        exact Except.noConfusion hc
      · rintro ⟨h1, _⟩
        omega
    · constructor
      · intro _
        omega
      · intro _
        exact ⟨(b, idx), rfl⟩
  · rw [if_pos (by decide : (2 : Nat) = 2)]
    have hw : wsub str.length 1 = str.length - 1 := by
      unfold wsub
      rw [if_pos hlen1]
    rw [hw]
    by_cases hg : idx < str.length - 1
    · rw [if_pos hg]
      have h1 : idx + 1 < str.length := by omega
      rw [str_get_lt h1, ok_bind]
      constructor
      · constructor
        · intro hc
          exact Except.noConfusion hc
        · rintro ⟨h1, _⟩
          omega
      · constructor
        · intro _
          omega
        · intro _
          exact ⟨_, rfl⟩
    · rw [if_neg hg]
      constructor
      · constructor
        · intro _
          omega
        · intro _
          rfl
      · constructor
        · rintro ⟨v, hv⟩
          exact absurd hv (fun hc => Except.noConfusion hc)
        · intro hc
          omega
  · rw [if_neg (by decide : ¬(3 : Nat) = 2), if_pos (by decide : (3 : Nat) = 3)]
    by_cases hl2 : 2 ≤ str.length
    · have hw : wsub str.length 2 = str.length - 2 := by
        unfold wsub
        rw [if_pos hl2]
      rw [hw]
      by_cases hg : idx < str.length - 2
      · rw [if_pos hg]
        have h1 : idx + 1 < str.length := by omega
        have h2 : idx + 2 < str.length := by omega
        rw [str_get_lt h1, ok_bind, str_get_lt h2, ok_bind]
        constructor
        · constructor
          · intro hc
            exact Except.noConfusion hc
          · rintro ⟨h1, _⟩
            omega
        · constructor
          · intro _
            omega
          · intro _
            exact ⟨_, rfl⟩
      · rw [if_neg hg]
        constructor
        · constructor
          · intro _
            omega
          · intro _
            rfl
        · constructor
          · rintro ⟨v, hv⟩
            exact absurd hv (fun hc => Except.noConfusion hc)
          · intro hc
            omega
    · have hw : wsub str.length 2 = 18446744073709551616 - (2 - str.length) + str.length := by
        unfold wsub
        rw [if_neg (by omega)]
      rw [hw, if_pos (by omega)]
      have hg1 : str_get str (idx + 1) = .ok 0 := by
        unfold str_get
        rw [dif_neg (by omega), if_pos (by omega)]
      have hg2 : str_get str (idx + 2) = Except.error Err.oob := by
        unfold str_get
        rw [dif_neg (by omega), if_neg (by omega)]
      rw [hg1, ok_bind, hg2, error_bind]
      constructor
      · constructor
        · intro hc
          exact absurd (Except.error.inj hc) (by decide)
        · rintro ⟨_, h2⟩
          omega
      · constructor
        · rintro ⟨v, hv⟩
          exact absurd hv (fun hc => Except.noConfusion hc)
        · intro hc
          omega
  · rw [if_neg (by decide : ¬(4 : Nat) = 2), if_neg (by decide : ¬(4 : Nat) = 3),
      if_pos (by decide : (4 : Nat) = 4)]
    by_cases hl3 : 3 ≤ str.length
    · have hw : wsub str.length 3 = str.length - 3 := by
        unfold wsub
        rw [if_pos hl3]
      rw [hw]
      by_cases hg : idx < str.length - 3
      · rw [if_pos hg]
        have h1 : idx + 1 < str.length := by omega
        have h2 : idx + 2 < str.length := by omega
        have h3 : idx + 3 < str.length := by omega
        rw [str_get_lt h1, ok_bind, str_get_lt h2, ok_bind,
          str_get_lt h3, ok_bind]
        constructor
        · constructor
          · intro hc
            exact Except.noConfusion hc
          · rintro ⟨h1, _⟩
            omega
        · constructor
          · intro _
            omega
          · intro _
            exact ⟨_, rfl⟩
      · rw [if_neg hg]
        constructor
        · constructor
          · intro _
            omega
          · intro _
            rfl
        · constructor
          · rintro ⟨v, hv⟩
            exact absurd hv (fun hc => Except.noConfusion hc)
          · intro hc
            omega
    · have hw : wsub str.length 3 = 18446744073709551616 - (3 - str.length) + str.length := by
        unfold wsub
        rw [if_neg (by omega)]
      rw [hw, if_pos (by omega)]
      obtain ⟨v1, hv1⟩ := str_get_le_ok (s := str) (j := idx + 1) (by omega)
      rw [hv1, ok_bind]
      have hg3 : str_get str (idx + 3) = Except.error Err.oob := str_get_gt (by omega)
      by_cases h2 : idx + 2 ≤ str.length
      · obtain ⟨v2, hv2⟩ := str_get_le_ok (s := str) (j := idx + 2) h2
        rw [hv2, ok_bind, hg3, error_bind]
        constructor
        · constructor
          · intro hc
            exact absurd (Except.error.inj hc) (by decide)
          · rintro ⟨_, hr⟩
            omega
        · constructor
          · rintro ⟨v, hv⟩
            exact absurd hv (fun hc => Except.noConfusion hc)
          · intro hc
            omega
      · have hg2 : str_get str (idx + 2) = Except.error Err.oob := str_get_gt (by omega)
        rw [hg2, error_bind]
        constructor
        · constructor
          · intro hc
            exact absurd (Except.error.inj hc) (by decide)
          · rintro ⟨_, hr⟩
            omega
        · constructor
          · rintro ⟨v, hv⟩
            exact absurd hv (fun hc => Except.noConfusion hc)
          · intro hc
            omega

/-- C8 counterexample: the claim states invalid UTF-8 with missing
continuation bytes raises `InvalidUtf8`.  The pattern `C3 61` (a 2-byte
lead byte whose continuation byte is missing, replaced by `a`) compiles
successfully — the decoder checks only lengths, so it packs `61` as the
second byte and emits a CHAR op for the mis-decoded pair. -/
theorem C8_counterexample_missing_continuation_accepted :
    (nfa_vm_new [195, 97]).map (fun _ => ()) = .ok () ∧
    (nfa_vm_new [195, 97]).map (fun e => e.prog.get? 1) =
      .ok (some ⟨OpType.CHAR, 25027, some (.toOp 2), none⟩) := by
  constructor <;> rfl

/-- Witness for the C8 amended theorem at the one-byte truncated pattern
`C3` (a 2-byte lead byte at the end of the string): the decode raises
`InvalidUtf8`. -/
theorem C8_amended_decode_errors_witness :
    get_utf8_n_inc [195] 0 = .error .invalidUtf8 := by
  exact ((C8_amended_decode_errors [195] 0 (by decide)).1).mpr (by decide)

end SimpleRegex
